import Mathlib

/-!
Verification of the Py-Sort move/undo engine (src/py_sort.py) against its
natural-language specification.

The Python program is shallowly embedded below.  Strings are Lean `String`s
(Python strings are sequences of code points; Lean's `String` wraps a
`List Char`).  Absolute file-system paths are lists of path components.  A
file's byte content is an opaque list of bytes.  The transaction-log file
`py_sort_moves.json` stores a JSON list of move records; its parsed form is
embedded directly as a list of `MoveRec`.  The interactive environment
(whether a given `shutil.move` attempt raises, and the operator's answers to
retry prompts) is passed in as explicit data.

Note on the source: the body of `organize_files` (src/py_sort.py 326-496) is
a bad merge and is not syntactically valid Python (the `except` at line 466
has no matching `try`; the `try/except/else` at lines 414-431 would re-move
an already moved file).  Where a definition below depends on that function,
it follows the second, interactive-retry mover block (lines 432-471), which
agrees with the function's docstring, with `organize_files_with_rename`
(lines 499-605) and with `undo_organization` (lines 608-711).  The remnant
helper `move_file_with_retry` (lines 157-182) is embedded separately.
-/

namespace PySort

/-- An absolute path, as a list of path components (records are stored with
`Path.resolve()`, so paths compared by the program are absolute). -/
abbrev FilePath := List String

/-- One record of the transaction log `py_sort_moves.json`
(src/py_sort.py 313-317): timestamp, original absolute path, new absolute
path.  The ISO timestamp string is abstracted as the tick of a logical
clock. -/
structure MoveRec where
  timestamp : Nat
  original : FilePath
  newPath : FilePath
deriving DecidableEq, Repr

/-- Content of a file.  Ordinary files are opaque byte lists; a readable
transaction log holds a JSON list of move records.  A `bytes` value at the
log path models a file that does not parse as a JSON list (json.JSONDecodeError
or a non-list document). -/
inductive Content where
  | bytes (data : List Nat)
  | log (moves : List MoveRec)
deriving DecidableEq, Repr

/-- `os.path.getsize`: size of a file.  For ordinary files this is its byte
count; the size of the serialized JSON log is abstracted as its record
count. -/
def contentSize : Content → Nat
  | .bytes data => data.length
  | .log moves => moves.length

/-- The file-system world visible to the program: the files (an association
list from absolute path to content, no duplicate keys in well-formed
worlds), the existing directories, and a logical clock supplying
`datetime.now()` timestamps. -/
structure World where
  files : List (FilePath × Content)
  dirs : List FilePath
  clock : Nat
deriving DecidableEq, Repr

/-- Look a path up in the file list (first match). -/
def fsGet : List (FilePath × Content) → FilePath → Option Content
  | [], _ => none
  | e :: rest, p => if e.1 = p then some e.2 else fsGet rest p

/-- Write a file: replace the first entry at the path, or append. -/
def fsSet : List (FilePath × Content) → FilePath → Content → List (FilePath × Content)
  | [], p, c => [(p, c)]
  | e :: rest, p, c => if e.1 = p then (p, c) :: rest else e :: fsSet rest p c

/-- Remove the first entry at the path. -/
def fsDel : List (FilePath × Content) → FilePath → List (FilePath × Content)
  | [], _ => []
  | e :: rest, p => if e.1 = p then rest else e :: fsDel rest p

/-- `shutil.move src dst`: the content leaves `src` and appears at `dst`.
Only invoked by the embedding when `src` exists and `dst` does not. -/
def moveFS (files : List (FilePath × Content)) (src dst : FilePath) :
    List (FilePath × Content) :=
  match fsGet files src with
  | some c => fsSet (fsDel files src) dst c
  | none => files

/-- If `p` is `root` with exactly one more component, that component. -/
def childName : FilePath → FilePath → Option String
  | [], [n] => some n
  | r :: rs, q :: qs => if r = q then childName rs qs else none
  | _, _ => none

/-- `[f for f in directory.iterdir() if f.is_file()]` (src/py_sort.py 371):
the names of the files directly inside `root`, in listing order. -/
def listDir (files : List (FilePath × Content)) (root : FilePath) : List String :=
  files.filterMap (fun e => childName root e.1)

/-- The names of the sub-directories directly inside `root`. -/
def subdirNames (dirs : List FilePath) (root : FilePath) : List String :=
  dirs.filterMap (childName root)

/-- `folder_path.mkdir(parents=True, exist_ok=True)` restricted to what the
claims exercise: record the directory if it is missing.  (The interactive
error loop of `create_folder_if_not_exists`, lines 197-217, is not reached
by any claim; folder creation always succeeds in this model.) -/
def addDir (dirs : List FilePath) (p : FilePath) : List FilePath :=
  if p ∈ dirs then dirs else dirs ++ [p]

/-! ## Classifier (src/py_sort.py 220-280) -/

/-- Sorting rules: category name to extension list, in insertion order
(Python dicts preserve insertion order). -/
abbrev Rules := List (String × List String)

/-- Lowercase a string character by character (`str.lower`). -/
def strLower (s : String) : String := ⟨s.data.map Char.toLower⟩

/-- Index of the last '.' in the list, if any. -/
def lastDot : List Char → Option Nat
  | [] => none
  | c :: rest =>
    match lastDot rest with
    | some i => some (i + 1)
    | none => if c = '.' then some 0 else none

/-- `pathlib.PurePath.suffix` of a file name: the part from the last dot on,
unless the dot is the first or last character. -/
def pySuffix (name : String) : String :=
  match lastDot name.data with
  | none => ""
  | some i =>
    if 0 < i ∧ i + 1 < name.data.length then ⟨name.data.drop i⟩ else ""

/-- `pathlib.PurePath.stem` of a file name: the name without its suffix. -/
def pyStem (name : String) : String :=
  match lastDot name.data with
  | none => name
  | some i =>
    if 0 < i ∧ i + 1 < name.data.length then ⟨name.data.take i⟩ else name

/-- `get_file_extension` (src/py_sort.py 220-235): the suffix, lowercased. -/
def get_file_extension (name : String) : String :=
  strLower (pySuffix name)

/-- `find_target_folder` (src/py_sort.py 259-280): first category, in rule
order, whose extension list contains the extension; `"Other"` if none.
A pure function: classification has no side effects. -/
def find_target_folder (ext : String) : Rules → String
  | [] => "Other"
  | (folder, exts) :: rest =>
    if ext ∈ exts then folder else find_target_folder ext rest

/-- `get_default_sorting_rules` (src/py_sort.py 125-154). -/
def get_default_sorting_rules : Rules :=
  [ ("Images", [".jpg", ".jpeg", ".png", ".gif", ".bmp", ".svg", ".webp",
      ".tiff", ".ico", ".raw", ".heic", ".heif", ".cr2", ".nef", ".arw",
      ".dng", ".psd"]),
    ("Documents", [".pdf", ".doc", ".docx", ".txt", ".rtf", ".odt",
      ".pages", ".md", ".tex", ".epub", ".mobi", ".azw", ".azw3", ".log"]),
    ("Videos", [".mp4", ".avi", ".mov", ".wmv", ".flv", ".webm", ".mkv",
      ".m4v", ".3gp", ".mpg", ".mpeg", ".vob", ".ogv"]),
    ("Audio", [".mp3", ".wav", ".flac", ".aac", ".ogg", ".m4a", ".wma",
      ".opus", ".aiff", ".au", ".mid", ".midi"]),
    ("Archives", [".zip", ".rar", ".7z", ".tar", ".gz", ".bz2", ".xz",
      ".tar.gz", ".tar.bz2", ".cab", ".iso", ".img"]),
    ("Code", [".py", ".js", ".html", ".css", ".java", ".cpp", ".c", ".php",
      ".rb", ".go", ".rs", ".ts", ".jsx", ".tsx", ".swift", ".kt", ".scala",
      ".sh", ".bash", ".json", ".xml", ".yaml", ".yml", ".sql"]),
    ("Spreadsheets", [".xls", ".xlsx", ".csv", ".ods", ".numbers", ".tsv",
      ".xlsm"]),
    ("Presentations", [".ppt", ".pptx", ".odp", ".key", ".pps", ".ppsx"]),
    ("Executables", [".exe", ".msi", ".deb", ".rpm", ".dmg", ".app",
      ".apk", ".jar"]) ]

/-! ## Move executor -/

/-- The per-file interactive environment: `failures` is the number of times
`shutil.move` raises a recoverable error before an attempt succeeds, and
`answers k` is the operator's reply to the k-th `prompt_retry` question for
this file (`true` = yes, retry; `false` = no, skip). -/
structure FileEnv where
  failures : Nat
  answers : Nat → Bool

/-- Outcome of one interactive move loop. -/
inductive MoveOutcome where
  | moved
  | skippedDecline
deriving DecidableEq, Repr

/-- The interactive retry loop shared by `organize_files` (lines 433-465),
`organize_files_with_rename` (lines 551-574) and `undo_organization`
(lines 684-707): try the move; on a recoverable error ask `prompt_retry`;
yes retries immediately (the loop body contains no sleep), no gives up on
this one file.  Returns the outcome and the number of move attempts made.
A run that fails forever with the operator always answering yes does not
terminate in the source either and has no representation here. -/
def moveLoop : Nat → (Nat → Bool) → MoveOutcome × Nat
  | 0, _ => (.moved, 1)
  | f + 1, ans =>
    if ans 0 then
      let r := moveLoop f (fun k => ans (k + 1))
      (r.1, r.2 + 1)
    else (.skippedDecline, 1)

/-- Which exception a given `shutil.move` attempt raises, if any. -/
inductive MoveErr where
  | perm
  | ose
deriving DecidableEq, Repr

/-- Recursion for `move_file_with_retry`: remaining attempts, index of the
current attempt, current delay, total seconds slept so far.  Returns the
exception finally raised (if any), the number of attempts made, and the
total automatic sleep. -/
def mfwrAux (errs : Nat → Option MoveErr) :
    Nat → Nat → Nat → Nat → Option MoveErr × Nat × Nat
  | 0, i, _, slept => (none, i, slept)
  | rem + 1, i, delay, slept =>
    match errs i with
    | none => (none, i + 1, slept)
    | some .perm =>
      if 0 < rem then mfwrAux errs rem (i + 1) (delay * 2) (slept + delay)
      else (some .perm, i + 1, slept)
    | some .ose => (some .ose, i + 1, slept)

/-- `move_file_with_retry` (src/py_sort.py 157-182) with its default
arguments `max_retries=3, delay=1`: on `PermissionError` it sleeps the
current delay, doubles it and retries, up to 3 attempts in all, then
re-raises; on `OSError` it re-raises at once.  It never consults the
operator (it has no prompt at all). -/
def move_file_with_retry (errs : Nat → Option MoveErr) : Option MoveErr × Nat × Nat :=
  mfwrAux errs 3 0 1 0

/-! ## Transaction log (src/py_sort.py 283-323) -/

/-- The log file's path for a directory. -/
def logPathOf (root : FilePath) : FilePath := root ++ ["py_sort_moves.json"]

/-- `log_move` (src/py_sort.py 283-323): read `py_sort_moves.json` in `root`
(treating an absent, corrupted or non-list file as an empty list), append
the record of the move just performed, rewrite the file. -/
def log_move (root : FilePath) (original newPath : FilePath) (now : Nat)
    (files : List (FilePath × Content)) : List (FilePath × Content) :=
  let moves := match fsGet files (logPathOf root) with
    | some (.log ms) => ms
    | some (.bytes _) => []
    | none => []
  fsSet files (logPathOf root) (.log (moves ++ [⟨now, original, newPath⟩]))

/-! ## Statistics aggregator -/

/-- End-of-run counters of one organize pass: moved and skipped counts,
total bytes moved, and per-category `{count, size}` in first-touch order
(a Python dict keyed by category). -/
structure Summary where
  moved : Nat
  skipped : Nat
  totalSize : Nat
  stats : List (String × Nat × Nat)
deriving DecidableEq, Repr

/-- The empty summary. -/
def Summary.init : Summary := ⟨0, 0, 0, []⟩

/-- `category_stats.setdefault(...); += 1; += size`. -/
def statsAdd : List (String × Nat × Nat) → String → Nat → List (String × Nat × Nat)
  | [], f, sz => [(f, 1, sz)]
  | (g, c, s) :: rest, f, sz =>
    if g = f then (g, c + 1, s + sz) :: rest else (g, c, s) :: statsAdd rest f sz

/-! ## organize_files (src/py_sort.py 326-496, plain entry point) -/

/-- One iteration of the `organize_files` loop (lines 392-471) for the file
called `name` directly inside `root`: classify, create the category folder
(unless dry-run), skip if the destination already exists, in dry-run mode
only report, otherwise run the interactive move loop and on success move
the file, append to the transaction log and update the statistics. -/
def plainStep (rules : Rules) (root : FilePath) (dryRun : Bool) (e : FileEnv)
    (w : World) (s : Summary) (name : String) : World × Summary :=
  let ext := get_file_extension name
  let folder := find_target_folder ext rules
  let src := root ++ [name]
  let size := match fsGet w.files src with
    | some c => contentSize c
    | none => 0
  let w1 := if dryRun then w else { w with dirs := addDir w.dirs (root ++ [folder]) }
  let target := root ++ [folder, name]
  match fsGet w1.files target with
  | some _ => (w1, { s with skipped := s.skipped + 1 })
  | none =>
    if dryRun then (w1, s)
    else
      match moveLoop e.failures e.answers with
      | (.moved, _) =>
        let files1 := moveFS w1.files src target
        let files2 := log_move root src target w1.clock files1
        ({ files := files2, dirs := w1.dirs, clock := w1.clock + 1 },
         { moved := s.moved + 1, skipped := s.skipped,
           totalSize := s.totalSize + size,
           stats := statsAdd s.stats folder size })
      | (.skippedDecline, _) => (w1, { s with skipped := s.skipped + 1 })

/-- Fold `plainStep` over the listing, threading the per-file environment
by file index. -/
def runPlain (rules : Rules) (root : FilePath) (dryRun : Bool)
    (envs : Nat → FileEnv) :
    List String → Nat → World → Summary → World × Summary
  | [], _, w, s => (w, s)
  | n :: rest, i, w, s =>
    let r := plainStep rules root dryRun (envs i) w s n
    runPlain rules root dryRun envs rest (i + 1) r.1 r.2

/-- `organize_files` (src/py_sort.py 326-496): list the files of `root`
once, then process each in listing order.  The plain entry point does not
exclude `py_sort_moves.json` or `py_sort.log` from the listing. -/
def organize_files (root : FilePath) (dryRun : Bool) (rules : Rules)
    (envs : Nat → FileEnv) (w : World) : World × Summary :=
  runPlain rules root dryRun envs (listDir w.files root) 0 w Summary.init

/-! ## Rename engine (src/py_sort.py 30-54) -/

/-- Does the list begin with the given pattern? -/
def startsWith : List Char → List Char → Bool
  | [], _ => true
  | _ :: _, [] => false
  | p :: ps, c :: cs => decide (p = c) && startsWith ps cs

/-- Does the pattern occur anywhere in the list? -/
def occursIn (old : List Char) : List Char → Bool
  | [] => old.isEmpty
  | c :: rest => startsWith old (c :: rest) || occursIn old rest

/-- Python `str.replace` on code-point lists: scan left to right, replacing
every non-overlapping occurrence of `old`.  Structural recursion on a fuel
that any `fuel ≥ s.length` makes irrelevant.  (For the degenerate empty
pattern this returns `s` unchanged; the program only replaces the non-empty
tokens `{date}`, `{clean}` and `{lower}`.) -/
def replA (old rep : List Char) : Nat → List Char → List Char
  | 0, s => s
  | fuel + 1, s =>
    match s with
    | [] => []
    | c :: rest =>
      if ¬old.isEmpty && startsWith old (c :: rest) then
        rep ++ replA old rep fuel (rest.drop (old.length - 1))
      else
        c :: replA old rep fuel rest

/-- Python `str.replace` on code-point lists, with the fuel fixed at the
input's length (shown sufficient below). -/
def replaceAll (old rep s : List Char) : List Char :=
  replA old rep s.length s

/-- Python `str.replace(old, new)` for strings. -/
def pyReplace (s old rep : String) : String :=
  ⟨replaceAll old.data rep.data s.data⟩

/-- The template substitution of `rename_file` (src/py_sort.py 42-45): the
three tokens are substituted in the fixed order `{date}`, `{clean}`,
`{lower}`, each by Python `str.replace`, i.e. at every occurrence. -/
def applyPattern (pattern dateS cleanN low : String) : String :=
  pyReplace (pyReplace (pyReplace pattern "{date}" dateS) "{clean}" cleanN)
    "{lower}" low

/-- Decimal digit to character. -/
def digitChar : Nat → Char
  | 0 => '0' | 1 => '1' | 2 => '2' | 3 => '3' | 4 => '4'
  | 5 => '5' | 6 => '6' | 7 => '7' | 8 => '8' | _ => '9'

/-- Decimal rendering of a positive counter (`f-string` interpolation of the
Python `int`). -/
def renderNum (n : Nat) : List Char :=
  ((Nat.digits 10 n).reverse).map digitChar

/-- The k-th candidate name tried by the uniquifying loop of `rename_file`
(src/py_sort.py 47-51): first `new_name + ext`, then `new_name_1 + ext`,
`new_name_2 + ext`, ... -/
def candName (base ext : String) : Nat → String
  | 0 => ⟨base.data ++ ext.data⟩
  | k + 1 => ⟨base.data ++ '_' :: (renderNum (k + 1) ++ ext.data)⟩

/-- Bounded search for the first candidate index at or after `k` whose name
is not in `existing`; returns `k + fuel` if the fuel runs out (proved
unreachable for the fuel used by `freshName`). -/
def searchFree (base ext : String) (existing : List String) : Nat → Nat → Nat
  | 0, k => k
  | fuel + 1, k =>
    if candName base ext k ∈ existing then searchFree base ext existing fuel (k + 1)
    else k

/-- The `while candidate in existing_names` loop (src/py_sort.py 47-51):
the first candidate name absent from `existing`. -/
def freshName (base ext : String) (existing : List String) : String :=
  candName base ext (searchFree base ext existing (existing.length + 1) 0)

/-- `rename_file` (src/py_sort.py 30-54).  `stem` and `ext` are
`file_path.stem` and `file_path.suffix` (the suffix is NOT lowercased
here, unlike classification).  The ASCII slug of the stem (lines 39-40:
Unicode NFKD normalization, ASCII projection, regex strip, underscore,
lower) is environment-dependent text processing abstracted as the input
`cleanN`, and `datetime.now().strftime(...)` as the input `dateS`; no claim
depends on their values.  Returns the chosen unique name and the updated
`existing_names` set (the chosen name is added before returning). -/
def rename_file (stem ext pattern cleanN dateS : String)
    (existing : List String) : String × List String :=
  let new_name := applyPattern pattern dateS cleanN (strLower stem)
  let candidate := freshName new_name ext existing
  (candidate, candidate :: existing)

/-- Literal at-most-once substitution, modelled from the spec's words
(§4.2: "three substitution tokens, each replaced at most once per call, in
a fixed order").  Replaces only the first occurrence of each token; used
only to compare the spec's description with the source's global
`str.replace`. -/
def replFirst (old rep : List Char) : Nat → List Char → List Char
  | 0, s => s
  | fuel + 1, s =>
    match s with
    | [] => []
    | c :: rest =>
      if ¬old.isEmpty && startsWith old (c :: rest) then
        rep ++ rest.drop (old.length - 1)
      else
        c :: replFirst old rep fuel rest

/-- At-most-once variant of the template substitution, per the spec's
words. -/
def applyPatternOnce (pattern dateS cleanN low : String) : String :=
  let n1 : List Char := replFirst "{date}".data dateS.data pattern.data.length pattern.data
  let n2 : List Char := replFirst "{clean}".data cleanN.data n1.length n1
  ⟨replFirst "{lower}".data low.data n2.length n2⟩

/-! ## organize_files_with_rename (src/py_sort.py 499-605) -/

/-- The placement part of one `organize_files_with_rename` iteration
(lines 541-580), after the destination name has been chosen: skip (and
`continue`) if the destination exists, otherwise in dry-run mode only
report, otherwise run the interactive move loop, moving the file and
appending to the log on success.  Every path that does not `continue` then
runs lines 576-580 and increments `moved_count`, `total_size` and the
category statistics - including the path on which the operator declined the
retry and the file was counted skipped. -/
def renamePlace (root : FilePath) (dryRun : Bool) (e : FileEnv) (w : World)
    (s : Summary) (folder : String) (size : Nat) (name newName : String) :
    World × Summary :=
  let src := root ++ [name]
  let target := root ++ [folder, newName]
  let bump : Summary → Summary := fun t =>
    { moved := t.moved + 1, skipped := t.skipped,
      totalSize := t.totalSize + size, stats := statsAdd t.stats folder size }
  match fsGet w.files target with
  | some _ => (w, { s with skipped := s.skipped + 1 })
  | none =>
    if dryRun then (w, bump s)
    else
      match moveLoop e.failures e.answers with
      | (.moved, _) =>
        let files1 := moveFS w.files src target
        let files2 := log_move root src target w.clock files1
        ({ files := files2, dirs := w.dirs, clock := w.clock + 1 }, bump s)
      | (.skippedDecline, _) =>
        (w, bump { s with skipped := s.skipped + 1 })

/-- One iteration of the `organize_files_with_rename` loop (lines 525-585),
threading the `existing_names` set. -/
def renameStep (rules : Rules) (root : FilePath) (dryRun : Bool)
    (pattern : Option String) (clean : String → String) (dateS : String)
    (e : FileEnv) (w : World) (s : Summary) (ex : List String)
    (name : String) : World × Summary × List String :=
  let extc := get_file_extension name
  let folder := find_target_folder extc rules
  let src := root ++ [name]
  let size := match fsGet w.files src with
    | some c => contentSize c
    | none => 0
  let w1 := if dryRun then w else { w with dirs := addDir w.dirs (root ++ [folder]) }
  match pattern with
  | some pat =>
    let r := rename_file (pyStem name) (pySuffix name) pat (clean (pyStem name)) dateS ex
    let p := renamePlace root dryRun e w1 s folder size name r.1
    (p.1, p.2, r.2)
  | none =>
    let p := renamePlace root dryRun e w1 s folder size name name
    (p.1, p.2, ex)

/-- Fold `renameStep` over the listing. -/
def runRename (rules : Rules) (root : FilePath) (dryRun : Bool)
    (pattern : Option String) (clean : String → String)
    (dates : Nat → String) (envs : Nat → FileEnv) :
    List String → Nat → World → Summary → List String → World × Summary
  | [], _, w, s, _ => (w, s)
  | n :: rest, i, w, s, ex =>
    let r := renameStep rules root dryRun pattern clean (dates i) (envs i) w s ex n
    runRename rules root dryRun pattern clean dates envs rest (i + 1) r.1 r.2.1 r.2.2

/-- `organize_files_with_rename` (src/py_sort.py 499-605): unlike the plain
entry point, the listing excludes the program's own files `py_sort.log` and
`py_sort_moves.json` (line 511); `existing_names` starts as the names of
every entry (files and sub-directories) of `root` (line 512).
`renameListing` is the filtered listing of line 511. -/
def renameListing (files : List (FilePath × Content)) (root : FilePath) :
    List String :=
  (listDir files root).filter
    (fun n => ¬(n = "py_sort.log" ∨ n = "py_sort_moves.json"))

def organize_files_with_rename (root : FilePath) (dryRun : Bool)
    (rules : Rules) (pattern : Option String) (clean : String → String)
    (dates : Nat → String) (envs : Nat → FileEnv) (w : World) :
    World × Summary :=
  let names := renameListing w.files root
  let existing0 := listDir w.files root ++ subdirNames w.dirs root
  runRename rules root dryRun pattern clean dates envs names 0 w Summary.init existing0

/-! ## undo_organization (src/py_sort.py 608-711) -/

/-- End-of-run counters of an undo pass. -/
structure UndoSummary where
  restored : Nat
  skipped : Nat
deriving DecidableEq, Repr

/-- One record of the undo loop (lines 661-707): skip if the file is no
longer at `new`, skip if `original` is already occupied (never overwrite),
otherwise create the missing parent directory if needed and run the
interactive move loop. -/
def undoStep (e : FileEnv) (w : World) (u : UndoSummary) (r : MoveRec) :
    World × UndoSummary :=
  match fsGet w.files r.newPath with
  | none => (w, { u with skipped := u.skipped + 1 })
  | some _ =>
    match fsGet w.files r.original with
    | some _ => (w, { u with skipped := u.skipped + 1 })
    | none =>
      let w1 := { w with dirs := addDir w.dirs r.original.dropLast }
      match moveLoop e.failures e.answers with
      | (.moved, _) =>
        ({ w1 with files := moveFS w1.files r.newPath r.original },
         { u with restored := u.restored + 1 })
      | (.skippedDecline, _) => (w1, { u with skipped := u.skipped + 1 })

/-- Fold `undoStep` over the records. -/
def runUndo (envs : Nat → FileEnv) :
    List MoveRec → Nat → World → UndoSummary → World × UndoSummary
  | [], _, w, u => (w, u)
  | r :: rest, i, w, u =>
    let p := undoStep (envs i) w u r
    runUndo envs rest (i + 1) p.1 p.2

/-- `undo_organization` (src/py_sort.py 608-711): load the log (absent,
non-list or empty means nothing to undo; a `bytes` blob at the log path
models an unreadable or malformed document), require the confirmation
answer to be exactly "y", then process the records in reverse order.
Faithful to the source, the function never rewrites `py_sort_moves.json`:
no clearing of the log happens after the pass. -/
def undo_organization (root : FilePath) (confirm : Bool)
    (envs : Nat → FileEnv) (w : World) : World × UndoSummary :=
  match fsGet w.files (logPathOf root) with
  | none => (w, ⟨0, 0⟩)
  | some (.bytes _) => (w, ⟨0, 0⟩)
  | some (.log ms) =>
    if ms = [] then (w, ⟨0, 0⟩)
    else if ¬confirm then (w, ⟨0, 0⟩)
    else runUndo envs ms.reverse 0 w ⟨0, 0⟩

/-! ## Helper lemmas about the file-system model -/

theorem fsGet_fsSet_self (files : List (FilePath × Content)) (p : FilePath)
    (c : Content) : fsGet (fsSet files p c) p = some c := by
  induction files with
  | nil => simp [fsSet, fsGet]
  | cons e rest ih =>
    by_cases h : e.1 = p
    · simp [fsSet, fsGet, h]
    · simp [fsSet, fsGet, h, ih]

theorem fsGet_fsSet_ne (files : List (FilePath × Content)) (p q : FilePath)
    (c : Content) (hne : q ≠ p) : fsGet (fsSet files p c) q = fsGet files q := by
  induction files with
  | nil =>
    simp only [fsSet, fsGet]
    rw [if_neg (Ne.symm hne)]
  | cons e rest ih =>
    by_cases h : e.1 = p
    · simp only [fsSet, if_pos h, fsGet]
      rw [if_neg (fun hh : p = q => hne hh.symm), h,
        if_neg (fun hh : p = q => hne hh.symm)]
    · simp only [fsSet, if_neg h, fsGet]
      by_cases h2 : e.1 = q
      · rw [if_pos h2, if_pos h2]
      · rw [if_neg h2, if_neg h2, ih]

theorem fsGet_fsDel_ne (files : List (FilePath × Content)) (p q : FilePath)
    (hne : q ≠ p) : fsGet (fsDel files p) q = fsGet files q := by
  induction files with
  | nil => simp [fsDel]
  | cons e rest ih =>
    by_cases h : e.1 = p
    · simp only [fsDel, if_pos h, fsGet]
      rw [h, if_neg (fun hh : p = q => hne hh.symm)]
    · simp only [fsDel, if_neg h, fsGet]
      by_cases h2 : e.1 = q
      · rw [if_pos h2, if_pos h2]
      · rw [if_neg h2, if_neg h2, ih]

theorem fsGet_moveFS_other (files : List (FilePath × Content))
    (src dst q : FilePath) (h1 : q ≠ src) (h2 : q ≠ dst) :
    fsGet (moveFS files src dst) q = fsGet files q := by
  unfold moveFS
  cases fsGet files src with
  | none => rfl
  | some c => rw [fsGet_fsSet_ne _ _ _ _ h2, fsGet_fsDel_ne _ _ _ h1]

/-! ## C4 : the classifier -/

theorem find_target_folder_first_match (ext cat : String) (exts : List String)
    (post : Rules) :
    ∀ pre : Rules, ext ∈ exts → (∀ r ∈ pre, ext ∉ r.2) →
      find_target_folder ext (pre ++ (cat, exts) :: post) = cat := by
  intro pre hmem hpre
  induction pre with
  | nil => simp [find_target_folder, hmem]
  | cons r rest ih =>
    have hr : ext ∉ r.2 := hpre r (by simp)
    simp only [List.cons_append, find_target_folder, hr, if_neg hr]
    exact ih (fun q hq => hpre q (by simp [hq]))

theorem find_target_folder_none (ext : String) :
    ∀ rules : Rules, (∀ r ∈ rules, ext ∉ r.2) →
      find_target_folder ext rules = "Other" := by
  intro rules h
  induction rules with
  | nil => rfl
  | cons r rest ih =>
    have hr : ext ∉ r.2 := h r (by simp)
    simp only [find_target_folder, if_neg hr]
    exact ih (fun q hq => h q (by simp [hq]))

/-- C4: classification is first-match over the rules in insertion order:
if the (lowercased) extension is contained in a category's set and in no
earlier category's set, that category is returned - in particular the
category is unique when no other set contains the extension at all; if no
category's set contains it, the sentinel "Other" is returned; and a
suffix-less file name yields the empty extension, which under the default
rules (no category lists "") classifies as "Other".  `find_target_folder`
is a pure Lean function, so classification has no side effects. -/
theorem classifier_first_match_or_other :
    (∀ (ext cat : String) (exts : List String) (pre post : Rules),
      ext ∈ exts → (∀ r ∈ pre, ext ∉ r.2) →
      find_target_folder ext (pre ++ (cat, exts) :: post) = cat) ∧
    (∀ (ext cat : String) (exts : List String) (pre post : Rules),
      ext ∈ exts → (∀ r ∈ pre ++ post, ext ∉ r.2) →
      find_target_folder ext (pre ++ (cat, exts) :: post) = cat) ∧
    (∀ (ext : String) (rules : Rules), (∀ r ∈ rules, ext ∉ r.2) →
      find_target_folder ext rules = "Other") ∧
    (get_file_extension "noextension" = "" ∧
     find_target_folder "" get_default_sorting_rules = "Other") := by
  refine ⟨?_, ?_, ?_, ?_, ?_⟩
  · intro ext cat exts pre post hmem hpre
    exact find_target_folder_first_match ext cat exts post pre hmem hpre
  · intro ext cat exts pre post hmem hprepost
    exact find_target_folder_first_match ext cat exts post pre hmem
      (fun r hr => hprepost r (by simp [hr]))
  · exact find_target_folder_none
  · decide
  · decide

/-- Witness for C4 at concrete inputs: with the rules
`[("Images", [".jpg"]), ("Docs", [".jpg", ".pdf"])]` the extension ".jpg"
(present in both sets) classifies as the first category "Images", ".pdf"
(present in exactly one) as "Docs", and ".xyz" (present in none) as
"Other". -/
theorem classifier_first_match_or_other_witness :
    find_target_folder ".jpg" [("Images", [".jpg"]), ("Docs", [".jpg", ".pdf"])] = "Images" ∧
    find_target_folder ".pdf" [("Images", [".jpg"]), ("Docs", [".jpg", ".pdf"])] = "Docs" ∧
    find_target_folder ".xyz" [("Images", [".jpg"]), ("Docs", [".jpg", ".pdf"])] = "Other" := by
  refine ⟨?_, ?_, ?_⟩
  · exact classifier_first_match_or_other.1 ".jpg" "Images" [".jpg"] []
      [("Docs", [".jpg", ".pdf"])] (by decide) (by decide)
  · exact classifier_first_match_or_other.2.1 ".pdf" "Docs" [".jpg", ".pdf"]
      [("Images", [".jpg"])] [] (by decide) (by decide)
  · exact classifier_first_match_or_other.2.2.1 ".xyz"
      [("Images", [".jpg"]), ("Docs", [".jpg", ".pdf"])] (by decide)

/-! ## C9 : dry-run purity -/

theorem plainStep_dry (rules : Rules) (root : FilePath) (e : FileEnv)
    (w : World) (s : Summary) (n : String) :
    (plainStep rules root true e w s n).1 = w := by
  unfold plainStep
  simp only [if_true]
  split
  · rfl
  · rfl

theorem runPlain_dry (rules : Rules) (root : FilePath) (envs : Nat → FileEnv) :
    ∀ (names : List String) (i : Nat) (w : World) (s : Summary),
      (runPlain rules root true envs names i w s).1 = w := by
  intro names
  induction names with
  | nil => intro i w s; rfl
  | cons n rest ih =>
    intro i w s
    show (runPlain rules root true envs rest (i + 1)
      (plainStep rules root true (envs i) w s n).1
      (plainStep rules root true (envs i) w s n).2).1 = w
    rw [ih, plainStep_dry]

theorem renamePlace_dry (root : FilePath) (e : FileEnv) (w : World)
    (s : Summary) (folder : String) (size : Nat) (name newName : String) :
    (renamePlace root true e w s folder size name newName).1 = w := by
  unfold renamePlace
  simp only [if_true]
  split
  · rfl
  · rfl

theorem renameStep_dry (rules : Rules) (root : FilePath)
    (pattern : Option String) (clean : String → String) (dateS : String)
    (e : FileEnv) (w : World) (s : Summary) (ex : List String) (n : String) :
    (renameStep rules root true pattern clean dateS e w s ex n).1 = w := by
  unfold renameStep
  simp only [if_true]
  cases pattern with
  | some pat => exact renamePlace_dry ..
  | none => exact renamePlace_dry ..

theorem runRename_dry (rules : Rules) (root : FilePath)
    (pattern : Option String) (clean : String → String)
    (dates : Nat → String) (envs : Nat → FileEnv) :
    ∀ (names : List String) (i : Nat) (w : World) (s : Summary)
      (ex : List String),
      (runRename rules root true pattern clean dates envs names i w s ex).1 = w := by
  intro names
  induction names with
  | nil => intro i w s ex; rfl
  | cons n rest ih =>
    intro i w s ex
    show (runRename rules root true pattern clean dates envs rest (i + 1)
      (renameStep rules root true pattern clean (dates i) (envs i) w s ex n).1
      (renameStep rules root true pattern clean (dates i) (envs i) w s ex n).2.1
      (renameStep rules root true pattern clean (dates i) (envs i) w s ex n).2.2).1 = w
    rw [ih, renameStep_dry]

/-- C9: organize in dry-run mode is pure with respect to the world: for both
entry points, the files (including the transaction-log file), the directory
set and the clock are all returned unchanged, and consequently iterating a
dry run any number of times also leaves the world unchanged. -/
theorem dry_run_never_mutates :
    (∀ (root : FilePath) (rules : Rules) (envs : Nat → FileEnv) (w : World),
      (organize_files root true rules envs w).1 = w) ∧
    (∀ (root : FilePath) (rules : Rules) (pattern : Option String)
      (clean : String → String) (dates : Nat → String)
      (envs : Nat → FileEnv) (w : World),
      (organize_files_with_rename root true rules pattern clean dates envs w).1 = w) ∧
    (∀ (root : FilePath) (rules : Rules) (envs : Nat → FileEnv) (n : Nat)
      (w : World),
      (fun v => (organize_files root true rules envs v).1)^[n] w = w) ∧
    (∀ (root : FilePath) (rules : Rules) (pattern : Option String)
      (clean : String → String) (dates : Nat → String)
      (envs : Nat → FileEnv) (n : Nat) (w : World),
      (fun v => (organize_files_with_rename root true rules pattern clean
        dates envs v).1)^[n] w = w) := by
  have h1 : ∀ (root : FilePath) (rules : Rules) (envs : Nat → FileEnv)
      (w : World), (organize_files root true rules envs w).1 = w :=
    fun root rules envs w => runPlain_dry rules root envs _ 0 w Summary.init
  have h2 : ∀ (root : FilePath) (rules : Rules) (pattern : Option String)
      (clean : String → String) (dates : Nat → String)
      (envs : Nat → FileEnv) (w : World),
      (organize_files_with_rename root true rules pattern clean dates envs w).1 = w :=
    fun root rules pattern clean dates envs w =>
      runRename_dry rules root pattern clean dates envs _ 0 w Summary.init _
  refine ⟨h1, h2, ?_, ?_⟩
  · intro root rules envs n w
    exact Function.iterate_fixed (h1 root rules envs w) n
  · intro root rules pattern clean dates envs n w
    exact Function.iterate_fixed (h2 root rules pattern clean dates envs w) n

/-! ## C3 : never overwrite an existing destination / original -/

theorem plainStep_existing_target_skips (rules : Rules) (root : FilePath)
    (e : FileEnv) (w : World) (s : Summary) (n : String) (c : Content)
    (h : fsGet w.files
      (root ++ [find_target_folder (get_file_extension n) rules, n]) = some c) :
    (plainStep rules root false e w s n).1.files = w.files ∧
    (plainStep rules root false e w s n).1.clock = w.clock ∧
    (plainStep rules root false e w s n).2 = { s with skipped := s.skipped + 1 } := by
  unfold plainStep
  simp only [Bool.false_eq_true, if_false]
  split
  · exact ⟨rfl, rfl, rfl⟩
  · next heq =>
    rw [h] at heq
    exact absurd heq (by simp)

theorem renamePlace_existing_target_skips (root : FilePath) (e : FileEnv)
    (w : World) (s : Summary) (folder : String) (size : Nat)
    (name newName : String) (c : Content)
    (h : fsGet w.files (root ++ [folder, newName]) = some c) :
    renamePlace root false e w s folder size name newName =
      (w, { s with skipped := s.skipped + 1 }) := by
  unfold renamePlace
  simp only [Bool.false_eq_true, if_false]
  split
  · rfl
  · next heq => rw [h] at heq; exact absurd heq (by simp)

theorem undoStep_existing_original_skips (e : FileEnv) (w : World)
    (u : UndoSummary) (r : MoveRec) (c1 c2 : Content)
    (hnew : fsGet w.files r.newPath = some c1)
    (horig : fsGet w.files r.original = some c2) :
    undoStep e w u r = (w, { u with skipped := u.skipped + 1 }) := by
  unfold undoStep
  rw [hnew, horig]

/-- C3: an existing file is never overwritten.  During organize (both the
plain and the rename-enabled entry point), if the destination path is
already occupied the step leaves every file (in particular the occupant)
and the clock unchanged and only counts one more skip; during undo, if the
original path is already occupied the step returns the world unchanged and
counts one more skip. -/
theorem never_overwrites_existing :
    (∀ (rules : Rules) (root : FilePath) (e : FileEnv) (w : World)
      (s : Summary) (n : String) (c : Content),
      fsGet w.files
        (root ++ [find_target_folder (get_file_extension n) rules, n]) = some c →
      (plainStep rules root false e w s n).1.files = w.files ∧
      (plainStep rules root false e w s n).2 = { s with skipped := s.skipped + 1 } ∧
      fsGet (plainStep rules root false e w s n).1.files
        (root ++ [find_target_folder (get_file_extension n) rules, n]) = some c) ∧
    (∀ (root : FilePath) (e : FileEnv) (w : World) (s : Summary)
      (folder : String) (size : Nat) (name newName : String) (c : Content),
      fsGet w.files (root ++ [folder, newName]) = some c →
      renamePlace root false e w s folder size name newName =
        (w, { s with skipped := s.skipped + 1 })) ∧
    (∀ (e : FileEnv) (w : World) (u : UndoSummary) (r : MoveRec)
      (c1 c2 : Content),
      fsGet w.files r.newPath = some c1 →
      fsGet w.files r.original = some c2 →
      undoStep e w u r = (w, { u with skipped := u.skipped + 1 })) := by
  refine ⟨?_, renamePlace_existing_target_skips, undoStep_existing_original_skips⟩
  intro rules root e w s n c h
  obtain ⟨h1, _h2, h3⟩ := plainStep_existing_target_skips rules root e w s n c h
  exact ⟨h1, h3, by rw [h1]; exact h⟩

/-- The all-successful per-file environment: no move attempt fails. -/
def envOk : FileEnv := ⟨0, fun _ => true⟩

/-- A concrete world for the C3 witness: `d/Images/x.jpg` already exists
while `d/x.jpg` is about to be organized into `Images/`. -/
def worldC3 : World :=
  ⟨[(["d", "Images", "x.jpg"], .bytes [9]), (["d", "x.jpg"], .bytes [7])],
    [["d"]], 0⟩

/-- Witness for C3 at a concrete world: `x.jpg` is to be organized into
`Images/`, but `d/Images/x.jpg` already exists; the plain step, the rename
placement and an undo record whose original is occupied all skip and leave
the files untouched. -/
theorem never_overwrites_existing_witness :
    (plainStep [("Images", [".jpg"])] ["d"] false envOk worldC3
      Summary.init "x.jpg").1.files = worldC3.files ∧
    renamePlace ["d"] false envOk worldC3 Summary.init "Images" 1 "x.jpg"
      "x.jpg" = (worldC3, { Summary.init with skipped := 1 }) ∧
    undoStep envOk worldC3 ⟨0, 0⟩ ⟨0, ["d", "x.jpg"], ["d", "Images", "x.jpg"]⟩ =
      (worldC3, ⟨0, 1⟩) := by
  refine ⟨?_, ?_, ?_⟩
  · exact (never_overwrites_existing.1 [("Images", [".jpg"])] ["d"] envOk
      worldC3 Summary.init "x.jpg" (.bytes [9]) (by decide)).1
  · exact never_overwrites_existing.2.1 ["d"] envOk worldC3
      Summary.init "Images" 1 "x.jpg" "x.jpg" (.bytes [9]) (by decide)
  · exact never_overwrites_existing.2.2 envOk worldC3 ⟨0, 0⟩
      ⟨0, ["d", "x.jpg"], ["d", "Images", "x.jpg"]⟩ (.bytes [9]) (.bytes [7])
      (by decide) (by decide)

/-! ## C1 : the undo pass and the persisted log

The docstring of `undo_organization` (src/py_sort.py 617) and the spec
(§4.5 step 5) say the move log is cleared after the pass; the function body
never writes `py_sort_moves.json` at all (its only file-system writes are
the `shutil.move` calls), so the log keeps its records. -/

theorem undoStep_keeps_log (root : FilePath) (e : FileEnv) (w : World)
    (u : UndoSummary) (r : MoveRec) (ms : List MoveRec)
    (hr : r.newPath ≠ logPathOf root)
    (h : fsGet w.files (logPathOf root) = some (.log ms)) :
    fsGet (undoStep e w u r).1.files (logPathOf root) = some (.log ms) := by
  unfold undoStep
  cases hnew : fsGet w.files r.newPath with
  | none => exact h
  | some c =>
    cases horig : fsGet w.files r.original with
    | some c2 => exact h
    | none =>
      cases hml : moveLoop e.failures e.answers with
      | mk outcome att =>
        cases outcome with
        | moved =>
          dsimp only
          rw [fsGet_moveFS_other]
          · exact h
          · exact fun hh => hr hh.symm
          · intro hh
            rw [hh] at h
            rw [h] at horig
            exact absurd horig (by simp)
        | skippedDecline => exact h

theorem runUndo_keeps_log (root : FilePath) (envs : Nat → FileEnv) :
    ∀ (l : List MoveRec) (i : Nat) (w : World) (u : UndoSummary)
      (ms : List MoveRec),
      (∀ r ∈ l, r.newPath ≠ logPathOf root) →
      fsGet w.files (logPathOf root) = some (.log ms) →
      fsGet (runUndo envs l i w u).1.files (logPathOf root) = some (.log ms) := by
  intro l
  induction l with
  | nil => intro i w u ms _ h; exact h
  | cons r rest ih =>
    intro i w u ms hl h
    show fsGet (runUndo envs rest (i + 1) (undoStep (envs i) w u r).1
      (undoStep (envs i) w u r).2).1.files _ = _
    exact ih (i + 1) _ _ ms (fun q hq => hl q (by simp [hq]))
      (undoStep_keeps_log root (envs i) w u r ms (hl r (by simp)) h)

/-- C1: the undo pass never clears the transaction log.  For any directory
whose log holds a non-empty record list `ms` (with no record pointing its
`new` path at the log file itself) and with the user confirmation
succeeding, after `undo_organization` has processed every record the
persisted log still holds exactly `ms` - not the empty list the spec and
the function's own docstring promise. -/
theorem undo_leaves_log_uncleared (root : FilePath) (envs : Nat → FileEnv)
    (w : World) (ms : List MoveRec) (hms : ms ≠ [])
    (hlog : fsGet w.files (logPathOf root) = some (.log ms))
    (hsafe : ∀ r ∈ ms, r.newPath ≠ logPathOf root) :
    fsGet (undo_organization root true envs w).1.files (logPathOf root) =
      some (.log ms) ∧ some (Content.log ms) ≠ some (Content.log []) := by
  constructor
  · unfold undo_organization
    rw [hlog]
    simp only [if_neg hms, not_true, if_neg, ite_false]
    exact runUndo_keeps_log root envs ms.reverse 0 w ⟨0, 0⟩ ms
      (fun r hr => hsafe r (List.mem_reverse.mp hr)) hlog
  · simp [hms]

/-- Witness for C1: a directory whose log holds one record; after a
confirmed undo (which restores the file), the log still holds that
record. -/
theorem undo_leaves_log_uncleared_witness :
    fsGet (undo_organization ["d"] true (fun _ => envOk)
        ⟨[(["d", "Images", "a.jpg"], .bytes [1]),
          (["d", "py_sort_moves.json"],
            .log [⟨0, ["d", "a.jpg"], ["d", "Images", "a.jpg"]⟩])],
          [["d"], ["d", "Images"]], 1⟩).1.files (logPathOf ["d"]) =
      some (.log [⟨0, ["d", "a.jpg"], ["d", "Images", "a.jpg"]⟩]) :=
  (undo_leaves_log_uncleared ["d"] (fun _ => envOk)
    ⟨[(["d", "Images", "a.jpg"], .bytes [1]),
      (["d", "py_sort_moves.json"],
        .log [⟨0, ["d", "a.jpg"], ["d", "Images", "a.jpg"]⟩])],
      [["d"], ["d", "Images"]], 1⟩
    [⟨0, ["d", "a.jpg"], ["d", "Images", "a.jpg"]⟩]
    (by decide) (by decide) (by decide)).1

/-! ## C2 : organize followed by a confirmed undo -/

/-- A directory with two files and no name collisions. -/
def worldC2 : World :=
  ⟨[(["d", "a.jpg"], .bytes [1]), (["d", "b.pdf"], .bytes [2, 2])], [["d"]], 0⟩

/-- The world after organizing `worldC2` and undoing with confirmation,
with every move attempt succeeding. -/
def roundTrip : World × UndoSummary :=
  undo_organization ["d"] true (fun _ => envOk)
    (organize_files ["d"] false get_default_sorting_rules (fun _ => envOk)
      worldC2).1

/-- C2: on a two-file directory with no collisions and no I/O failures,
organize followed by a confirmed undo restores both files - the original
paths hold the original byte contents and the category copies are gone, and
both records were restored - but the persisted transaction log still holds
the two move records: it is NOT cleared to the empty list, contradicting
the claim's `log_after_undo == []`. -/
theorem organize_undo_roundtrip_log_not_emptied :
    fsGet roundTrip.1.files ["d", "a.jpg"] = some (.bytes [1]) ∧
    fsGet roundTrip.1.files ["d", "b.pdf"] = some (.bytes [2, 2]) ∧
    fsGet roundTrip.1.files ["d", "Images", "a.jpg"] = none ∧
    fsGet roundTrip.1.files ["d", "Documents", "b.pdf"] = none ∧
    roundTrip.2 = ⟨2, 0⟩ ∧
    fsGet roundTrip.1.files (logPathOf ["d"]) =
      some (.log [⟨0, ["d", "a.jpg"], ["d", "Images", "a.jpg"]⟩,
                  ⟨1, ["d", "b.pdf"], ["d", "Documents", "b.pdf"]⟩]) ∧
    some (Content.log [⟨0, ["d", "a.jpg"], ["d", "Images", "a.jpg"]⟩,
                       ⟨1, ["d", "b.pdf"], ["d", "Documents", "b.pdf"]⟩]) ≠
      some (Content.log []) := by
  decide

/-! ## C8 : statistics versus skipped files -/

/-- A directory with a single pdf file. -/
def worldC8 : World := ⟨[(["d", "doc.pdf"], .bytes [5])], [["d"]], 0⟩

/-- The environment in which the first move attempt raises and the operator
declines the retry. -/
def envFailDecline : FileEnv := ⟨1, fun _ => false⟩

/-- C8: the statistics are not accumulated "exactly for the files actually
moved".  In the rename-enabled pass (lines 576-580 run on every
non-`continue` path), a file whose move failed and whose retry the operator
declined is counted BOTH as skipped and as moved, with its size added to
the totals and to the per-category statistics, although it was never moved
(it is still at its source path).  And the plain pass in dry-run mode
accumulates nothing at all for the files it reports it would move. -/
theorem stats_count_declined_skip :
    (organize_files_with_rename ["d"] false get_default_sorting_rules none
      (fun s => s) (fun _ => "D") (fun _ => envFailDecline) worldC8).2 =
      ⟨1, 1, 1, [("Documents", 1, 1)]⟩ ∧
    fsGet (organize_files_with_rename ["d"] false get_default_sorting_rules
      none (fun s => s) (fun _ => "D") (fun _ => envFailDecline)
      worldC8).1.files ["d", "doc.pdf"] = some (.bytes [5]) ∧
    fsGet (organize_files_with_rename ["d"] false get_default_sorting_rules
      none (fun s => s) (fun _ => "D") (fun _ => envFailDecline)
      worldC8).1.files ["d", "Documents", "doc.pdf"] = none ∧
    (organize_files ["d"] true get_default_sorting_rules (fun _ => envOk)
      worldC8).2 = ⟨0, 0, 0, []⟩ := by
  decide

/-! ## C10 : the program's own files during organize -/

/-- A directory that still contains the transaction log of an earlier
organize pass, plus one ordinary file. -/
def worldC10 : World :=
  ⟨[(["d", "py_sort_moves.json"], .log [⟨99, ["x"], ["y"]⟩]),
    (["d", "a.jpg"], .bytes [1])], [["d"]], 0⟩

/-- The world after plain-organizing `worldC10`. -/
def afterC10 : World × Summary :=
  organize_files ["d"] false get_default_sorting_rules (fun _ => envOk) worldC10

/-- C10: the plain entry point organizes the program's own files like any
others, the rename-enabled entry point excludes them.  For every world the
rename listing never contains `py_sort_moves.json` or `py_sort.log`; under
the default rules `.json` classifies as "Code" and `.log` as "Documents";
and concretely, plain-organizing a directory holding an old log moves that
log file into `Code/` (its old record with it), after which the next log
append has started a fresh log at the directory root whose first record is
the log file's own move. -/
theorem plain_organizes_own_log_rename_excludes :
    (∀ (files : List (FilePath × Content)) (root : FilePath),
      "py_sort_moves.json" ∉ renameListing files root ∧
      "py_sort.log" ∉ renameListing files root) ∧
    find_target_folder ".json" get_default_sorting_rules = "Code" ∧
    find_target_folder ".log" get_default_sorting_rules = "Documents" ∧
    listDir worldC10.files ["d"] = ["py_sort_moves.json", "a.jpg"] ∧
    fsGet afterC10.1.files ["d", "Code", "py_sort_moves.json"] =
      some (.log [⟨99, ["x"], ["y"]⟩]) ∧
    fsGet afterC10.1.files (logPathOf ["d"]) =
      some (.log [⟨0, ["d", "py_sort_moves.json"], ["d", "Code", "py_sort_moves.json"]⟩,
                  ⟨1, ["d", "a.jpg"], ["d", "Images", "a.jpg"]⟩]) := by
  refine ⟨?_, by decide, by decide, by decide, by decide, by decide⟩
  intro files root
  constructor
  · intro hmem
    have := (List.mem_filter.mp hmem).2
    simp at this
  · intro hmem
    have := (List.mem_filter.mp hmem).2
    simp at this

/-- Witness for C10 at a concrete world: its rename listing for `worldC10`
is just `a.jpg` - the resident transaction log is excluded. -/
theorem plain_organizes_own_log_rename_excludes_witness :
    "py_sort_moves.json" ∉ renameListing worldC10.files ["d"] ∧
    renameListing worldC10.files ["d"] = ["a.jpg"] :=
  ⟨((plain_organizes_own_log_rename_excludes).1 worldC10.files ["d"]).1,
   by decide⟩

/-! ## C5 : retry policy on recoverable move failures -/

/-- C5 counterexample: the repository's move helper `move_file_with_retry`
(src/py_sort.py 157-182, named by the claim) does not implement an
interactive user-driven retry loop.  On persistent `PermissionError` it
makes exactly 3 attempts (the implicit `max_retries` cap) separated by
automatic sleeps of 1 then 2 seconds (3 seconds of backoff in all) and
consults the operator zero times (it takes no prompt at all); on a generic
`OSError` it re-raises after a single attempt with no retry whatsoever. -/
theorem move_file_with_retry_caps_and_backoff :
    move_file_with_retry (fun _ => some .perm) = (some .perm, 3, 3) ∧
    move_file_with_retry (fun _ => some .ose) = (some .ose, 1, 0) ∧
    (3 : Nat) ≠ 0 := by
  decide

theorem moveLoop_all_yes (f : Nat) :
    ∀ ans : Nat → Bool, (∀ k, k < f → ans k = true) →
      moveLoop f ans = (.moved, f + 1) := by
  induction f with
  | zero => intro ans _; rfl
  | succ f ih =>
    intro ans h
    show (if ans 0 then _ else _) = _
    rw [h 0 (Nat.succ_pos f)]
    simp only [if_true]
    rw [ih (fun k => ans (k + 1)) (fun k hk => h (k + 1) (Nat.succ_lt_succ hk))]

theorem moveLoop_decline_at (j : Nat) :
    ∀ (f : Nat) (ans : Nat → Bool), j < f → ans j = false →
      (∀ k, k < j → ans k = true) →
      moveLoop f ans = (.skippedDecline, j + 1) := by
  induction j with
  | zero =>
    intro f ans hj h0 _
    cases f with
    | zero => exact absurd hj (by omega)
    | succ f =>
      show (if ans 0 then _ else _) = _
      rw [h0]
      simp
  | succ j ih =>
    intro f ans hj hj1 hk
    cases f with
    | zero => exact absurd hj (by omega)
    | succ f =>
      show (if ans 0 then _ else _) = _
      rw [hk 0 (Nat.succ_pos j)]
      simp only [if_true]
      rw [ih f (fun k => ans (k + 1)) (by omega) hj1
        (fun k hkj => hk (k + 1) (Nat.succ_lt_succ hkj))]

theorem plainStep_accounts_one (rules : Rules) (root : FilePath) (e : FileEnv)
    (w : World) (s : Summary) (n : String) :
    (plainStep rules root false e w s n).2.moved +
      (plainStep rules root false e w s n).2.skipped =
      s.moved + s.skipped + 1 := by
  unfold plainStep
  simp only [Bool.false_eq_true, if_false]
  split
  · dsimp only
    omega
  · split
    · dsimp only
      omega
    · dsimp only
      omega

theorem runPlain_accounts (rules : Rules) (root : FilePath)
    (envs : Nat → FileEnv) :
    ∀ (names : List String) (i : Nat) (w : World) (s : Summary),
      (runPlain rules root false envs names i w s).2.moved +
        (runPlain rules root false envs names i w s).2.skipped =
        s.moved + s.skipped + names.length := by
  intro names
  induction names with
  | nil => intro i w s; rfl
  | cons n rest ih =>
    intro i w s
    show (runPlain rules root false envs rest (i + 1)
        (plainStep rules root false (envs i) w s n).1
        (plainStep rules root false (envs i) w s n).2).2.moved +
      (runPlain rules root false envs rest (i + 1)
        (plainStep rules root false (envs i) w s n).1
        (plainStep rules root false (envs i) w s n).2).2.skipped =
      s.moved + s.skipped + (n :: rest).length
    rw [ih]
    have := plainStep_accounts_one rules root (envs i) w s n
    simp only [List.length_cons]
    omega

/-- C5 (amended): the interactive move loop shared by the rename-enabled
organize pass, the plain pass's reachable mover block and the undo engine
is driven purely by operator answers: with `f` consecutive recoverable
failures all answered "yes", the move succeeds after exactly `f + 1`
attempts, for arbitrarily large `f` (no implicit attempt cap, each retry
immediate and user-initiated - the loop body contains no sleep); the first
"no", after the `j`-th failure, ends the loop with that one file skipped
after `j + 1` attempts; and for the plain organize pass each listed file
contributes exactly one to `moved + skipped`, so a declined file never
aborts the rest of the batch.  By contrast the legacy helper
`move_file_with_retry` auto-retries with a cap and backoff (see the
counterexample). -/
theorem interactive_retry_unbounded_user_driven :
    (∀ (f : Nat) (ans : Nat → Bool), (∀ k, k < f → ans k = true) →
      moveLoop f ans = (.moved, f + 1)) ∧
    (∀ (j f : Nat) (ans : Nat → Bool), j < f → ans j = false →
      (∀ k, k < j → ans k = true) →
      moveLoop f ans = (.skippedDecline, j + 1)) ∧
    (∀ (rules : Rules) (root : FilePath) (envs : Nat → FileEnv) (w : World),
      (organize_files root false rules envs w).2.moved +
        (organize_files root false rules envs w).2.skipped =
        (listDir w.files root).length) :=
  ⟨fun f ans h => moveLoop_all_yes f ans h,
   fun j f ans hj h0 hk => moveLoop_decline_at j f ans hj h0 hk,
   fun rules root envs w => by
     have := runPlain_accounts rules root envs (listDir w.files root) 0 w
       Summary.init
     simpa [organize_files, Summary.init] using this⟩

/-- Witness for C5 (amended): five failures all answered yes give a
successful move after six attempts; with answers "yes then no", the file is
skipped after the second attempt; and the plain pass on `worldC2` accounts
its two files as moved + skipped = 2. -/
theorem interactive_retry_unbounded_user_driven_witness :
    moveLoop 5 (fun _ => true) = (.moved, 6) ∧
    moveLoop 3 (fun k => decide (k = 0)) = (.skippedDecline, 2) ∧
    (organize_files ["d"] false get_default_sorting_rules (fun _ => envOk)
      worldC2).2.moved +
      (organize_files ["d"] false get_default_sorting_rules (fun _ => envOk)
        worldC2).2.skipped = 2 :=
  ⟨interactive_retry_unbounded_user_driven.1 5 (fun _ => true)
      (fun k _ => rfl),
   interactive_retry_unbounded_user_driven.2.1 1 3 (fun k => decide (k = 0))
      (by omega) (by decide) (fun k hk => by interval_cases k; decide),
   interactive_retry_unbounded_user_driven.2.2 get_default_sorting_rules
      ["d"] (fun _ => envOk) worldC2⟩

/-! ## C6 : global, ordered token substitution -/

theorem replA_fuel_irrel (old rep : List Char) :
    ∀ (f g : Nat) (s : List Char), s.length ≤ f → s.length ≤ g →
      replA old rep f s = replA old rep g s := by
  intro f
  induction f with
  | zero =>
    intro g s hf _
    have : s = [] := List.eq_nil_of_length_eq_zero (by omega)
    subst this
    cases g with
    | zero => rfl
    | succ g => rfl
  | succ f ih =>
    intro g s hf hg
    cases s with
    | nil =>
      cases g with
      | zero => rfl
      | succ g => rfl
    | cons c rest =>
      cases g with
      | zero => exact absurd hg (by simp)
      | succ g =>
        show (if _ then rep ++ replA old rep f (rest.drop (old.length - 1))
          else c :: replA old rep f rest) =
          (if _ then rep ++ replA old rep g (rest.drop (old.length - 1))
          else c :: replA old rep g rest)
        have hr : rest.length ≤ f := by
          have := hf
          simp only [List.length_cons] at this
          omega
        have hr2 : rest.length ≤ g := by
          have := hg
          simp only [List.length_cons] at this
          omega
        have hd : (rest.drop (old.length - 1)).length ≤ rest.length := by
          simp [List.length_drop]
        split
        · rw [ih g (rest.drop (old.length - 1)) (by omega) (by omega)]
        · rw [ih g rest hr hr2]

theorem startsWith_append_self (l s : List Char) :
    startsWith l (l ++ s) = true := by
  induction l with
  | nil => rfl
  | cons c rest ih => simp [startsWith, ih]

theorem replaceAll_token_head (old rep s : List Char) (h : old ≠ []) :
    replaceAll old rep (old ++ s) = rep ++ replaceAll old rep s := by
  cases old with
  | nil => exact absurd rfl h
  | cons c t =>
    show replA (c :: t) rep ((c :: t) ++ s).length ((c :: t) ++ s) = _
    have hlen : ((c :: t) ++ s).length = (t ++ s).length + 1 := by simp
    rw [hlen]
    show (if _ then rep ++ replA (c :: t) rep (t ++ s).length
        ((t ++ s).drop ((c :: t).length - 1))
      else c :: replA (c :: t) rep (t ++ s).length (t ++ s)) = _
    rw [if_pos]
    · have hdrop : (t ++ s).drop ((c :: t).length - 1) = s := by
        simp only [List.length_cons, Nat.add_sub_cancel]
        exact List.drop_left t s
      rw [hdrop,
        replA_fuel_irrel (c :: t) rep (t ++ s).length s.length s (by simp) le_rfl]
      rfl
    · simp only [List.isEmpty_cons, Bool.not_false, Bool.true_and]
      exact startsWith_append_self (c :: t) s

theorem replaceAll_skip_heads (h : Char) (t rep : List Char) :
    ∀ (pre s : List Char), (∀ c ∈ pre, c ≠ h) →
      replaceAll (h :: t) rep (pre ++ s) = pre ++ replaceAll (h :: t) rep s := by
  intro pre
  induction pre with
  | nil => intro s _; rfl
  | cons c pre' ih =>
    intro s hpre
    show replA (h :: t) rep ((c :: (pre' ++ s)).length) (c :: (pre' ++ s)) = _
    have hlen : (c :: (pre' ++ s)).length = (pre' ++ s).length + 1 := by simp
    rw [hlen]
    show (if _ then _ else c :: replA (h :: t) rep (pre' ++ s).length (pre' ++ s)) = _
    rw [if_neg]
    · show c :: replaceAll (h :: t) rep (pre' ++ s) = _
      rw [ih s (fun x hx => hpre x (by simp [hx])), List.cons_append]
    · have hch : c ≠ h := hpre c (by simp)
      have hsw : startsWith (h :: t) (c :: (pre' ++ s)) = false := by
        simp [startsWith, decide_eq_false (fun hh : h = c => hch hh.symm)]
      simp [hsw]

theorem replaceAll_no_occurrence (old rep : List Char) :
    ∀ s : List Char, occursIn old s = false → replaceAll old rep s = s := by
  intro s
  induction s with
  | nil => intro _; rfl
  | cons c rest ih =>
    intro hocc
    simp only [occursIn, Bool.or_eq_false_iff] at hocc
    show replA old rep ((c :: rest).length) (c :: rest) = _
    have hlen : (c :: rest).length = rest.length + 1 := by simp
    rw [hlen]
    show (if _ then _ else c :: replA old rep rest.length rest) = _
    rw [if_neg]
    · show c :: replaceAll old rep rest = _
      rw [ih hocc.2]
    · simp [hocc.1]

theorem string_eq_of_data (a b : String) (h : a.data = b.data) : a = b := by
  cases a
  cases b
  exact congrArg String.mk h

theorem data_of_append (a b : String) : (a ++ b).data = a.data ++ b.data := by
  cases a
  cases b
  rfl

theorem replaceAll_double (h : Char) (t rep pre tail : List Char)
    (hpre : ∀ c ∈ pre, c ≠ h)
    (hocc : occursIn (h :: t) tail = false) :
    replaceAll (h :: t) rep (pre ++ ((h :: t) ++ ((h :: t) ++ tail))) =
      pre ++ (rep ++ (rep ++ tail)) := by
  rw [replaceAll_skip_heads h t rep pre _ hpre,
    replaceAll_token_head _ _ _ (by simp),
    replaceAll_token_head _ _ _ (by simp),
    replaceAll_no_occurrence _ _ _ hocc]

/-- C6 counterexample: with the pattern `{lower}{lower}`, stem "ab" and
extension ".txt" (slug and date values irrelevant), the source's
`rename_file` substitutes BOTH occurrences of the token and returns
"abab.txt", while the spec's at-most-once substitution would leave the
second occurrence as the literal text `{lower}` - the two disagree. -/
theorem rename_substitutes_every_occurrence_cex :
    (rename_file "ab" ".txt" "{lower}{lower}" "ab" "D" []).1 = "abab.txt" ∧
    applyPatternOnce "{lower}{lower}" "D" "ab" (strLower "ab") = "ab{lower}" ∧
    ("abab.txt" : String) ≠ "ab{lower}.txt" := by
  decide

/-- C6 (amended): each substitution token is replaced at EVERY occurrence
(Python `str.replace` is global), and the three replacements happen in the
fixed order `{date}`, then `{clean}`, then `{lower}`.  On a pattern
containing each token twice, all six occurrences are substituted (provided
the substituted values contain no brace, so no occurrence is re-created);
and because `{date}` is substituted first, a date value that itself reads
`{clean}` is then rewritten by the `{clean}` pass - exhibiting the order. -/
theorem rename_substitutes_globally_in_order (dateS cleanN low : String)
    (h1 : ∀ c ∈ dateS.data, c ≠ '{') (h2 : ∀ c ∈ cleanN.data, c ≠ '{') :
    (applyPattern "{date}{date}{clean}{clean}{lower}{lower}" dateS cleanN low =
      dateS ++ dateS ++ cleanN ++ cleanN ++ low ++ low) ∧
    applyPattern "{date}" "{clean}" "X" "y" = "X" := by
  constructor
  · apply string_eq_of_data
    show replaceAll "{lower}".data low.data
        (replaceAll "{clean}".data cleanN.data
          (replaceAll "{date}".data dateS.data
            "{date}{date}{clean}{clean}{lower}{lower}".data)) = _
    have hp1 : ("{date}{date}{clean}{clean}{lower}{lower}".data : List Char) =
        [] ++ (('{' :: "date\x7d".data) ++ (('{' :: "date\x7d".data) ++
          "{clean}{clean}{lower}{lower}".data)) := by decide
    have hd : ("{date}".data : List Char) = '{' :: "date\x7d".data := by decide
    have hc : ("{clean}".data : List Char) = '{' :: "clean\x7d".data := by decide
    have hl : ("{lower}".data : List Char) = '{' :: "lower\x7d".data := by decide
    rw [hd, hc, hl, hp1,
      replaceAll_double '{' "date\x7d".data dateS.data [] _ (by simp) (by decide),
      List.nil_append]
    have hp2 : dateS.data ++ (dateS.data ++ "{clean}{clean}{lower}{lower}".data) =
        (dateS.data ++ dateS.data) ++ (('{' :: "clean\x7d".data) ++
          (('{' :: "clean\x7d".data) ++ "{lower}{lower}".data)) := by
      have : ("{clean}{clean}{lower}{lower}".data : List Char) =
          ('{' :: "clean\x7d".data) ++ (('{' :: "clean\x7d".data) ++
            "{lower}{lower}".data) := by decide
      rw [this, List.append_assoc]
    rw [hp2,
      replaceAll_double '{' "clean\x7d".data cleanN.data (dateS.data ++ dateS.data) _
        (by
          intro c hcm
          rcases List.mem_append.mp hcm with hx | hx
          · exact h1 c hx
          · exact h1 c hx)
        (by decide)]
    have hp3 : (dateS.data ++ dateS.data) ++ (cleanN.data ++ (cleanN.data ++
        "{lower}{lower}".data)) =
        ((dateS.data ++ dateS.data) ++ (cleanN.data ++ cleanN.data)) ++
          (('{' :: "lower\x7d".data) ++ (('{' :: "lower\x7d".data) ++ [])) := by
      have : ("{lower}{lower}".data : List Char) =
          ('{' :: "lower\x7d".data) ++ (('{' :: "lower\x7d".data) ++ []) := by decide
      rw [this]
      simp [List.append_assoc]
    rw [hp3,
      replaceAll_double '{' "lower\x7d".data low.data
        ((dateS.data ++ dateS.data) ++ (cleanN.data ++ cleanN.data)) []
        (by
          intro c hcm
          rcases List.mem_append.mp hcm with hx | hx
          · rcases List.mem_append.mp hx with hy | hy
            · exact h1 c hy
            · exact h1 c hy
          · rcases List.mem_append.mp hx with hy | hy
            · exact h2 c hy
            · exact h2 c hy)
        (by decide)]
    simp [data_of_append, List.append_assoc]
  · decide

/-- Witness for C6 (amended): with date "D", slug "c" and lowered stem "s"
(none containing a brace) the doubled pattern expands to "DDccss". -/
theorem rename_substitutes_globally_in_order_witness :
    applyPattern "{date}{date}{clean}{clean}{lower}{lower}" "D" "c" "s" =
      "DDccss" ∧
    applyPattern "{date}" "{clean}" "X" "y" = "X" :=
  ⟨by
    rw [(rename_substitutes_globally_in_order "D" "c" "s" (by decide)
      (by decide)).1]
    decide,
   (rename_substitutes_globally_in_order "D" "c" "s" (by decide)
      (by decide)).2⟩

/-! ## C7 : uniqueness of renamed files -/

theorem digitChar_inj_lt (a b : Nat) (ha : a < 10) (hb : b < 10) :
    digitChar a = digitChar b → a = b := by
  interval_cases a <;> interval_cases b <;> decide

theorem map_digitChar_inj :
    ∀ (l1 l2 : List Nat), (∀ x ∈ l1, x < 10) → (∀ x ∈ l2, x < 10) →
      l1.map digitChar = l2.map digitChar → l1 = l2 := by
  intro l1
  induction l1 with
  | nil =>
    intro l2 _ _ h
    cases l2 with
    | nil => rfl
    | cons b bs => exact absurd h (by simp)
  | cons a as ih =>
    intro l2 h1 h2 h
    cases l2 with
    | nil => exact absurd h (by simp)
    | cons b bs =>
      simp only [List.map_cons, List.cons.injEq] at h
      have hab : a = b :=
        digitChar_inj_lt a b (h1 a (by simp)) (h2 b (by simp)) h.1
      rw [hab, ih bs (fun x hx => h1 x (by simp [hx]))
        (fun x hx => h2 x (by simp [hx])) h.2]

theorem renderNum_inj : Function.Injective renderNum := by
  intro a b h
  unfold renderNum at h
  have hbound : ∀ n : Nat, ∀ x ∈ (Nat.digits 10 n).reverse, x < 10 := by
    intro n x hx
    exact Nat.digits_lt_base (by norm_num) (List.mem_reverse.mp hx)
  have h2 : (Nat.digits 10 a).reverse = (Nat.digits 10 b).reverse :=
    map_digitChar_inj _ _ (hbound a) (hbound b) h
  have h3 : Nat.digits 10 a = Nat.digits 10 b := List.reverse_inj.mp h2
  calc a = Nat.ofDigits 10 (Nat.digits 10 a) := (Nat.ofDigits_digits 10 a).symm
    _ = Nat.ofDigits 10 (Nat.digits 10 b) := by rw [h3]
    _ = b := Nat.ofDigits_digits 10 b

theorem candName_inj (base ext : String) :
    Function.Injective (candName base ext) := by
  intro a b h
  cases a with
  | zero =>
    cases b with
    | zero => rfl
    | succ b =>
      exfalso
      have hd := congrArg String.data h
      have hlen := congrArg List.length hd
      simp [candName, List.length_append] at hlen
      omega
  | succ a =>
    cases b with
    | zero =>
      exfalso
      have hd := congrArg String.data h
      have hlen := congrArg List.length hd
      simp [candName, List.length_append] at hlen
      omega
    | succ b =>
      have hd := congrArg String.data h
      simp only [candName] at hd
      have htails := (List.append_inj hd rfl).2
      simp only [List.cons.injEq, true_and] at htails
      have hlen : (renderNum (a + 1)).length = (renderNum (b + 1)).length := by
        have := congrArg List.length htails
        simp only [List.length_append] at this
        omega
      have hrn := (List.append_inj htails hlen).1
      have := renderNum_inj hrn
      omega

theorem exists_fresh_index (base ext : String) (existing : List String) :
    ∃ k, k ≤ existing.length ∧ candName base ext k ∉ existing := by
  by_contra hcon
  push_neg at hcon
  have hsub : (Finset.range (existing.length + 1)).image (candName base ext) ⊆
      existing.toFinset := by
    intro x hx
    rcases Finset.mem_image.mp hx with ⟨k, hk, rfl⟩
    have hk2 := Finset.mem_range.mp hk
    exact List.mem_toFinset.mpr (hcon k (by omega))
  have hcard := Finset.card_le_card hsub
  rw [Finset.card_image_of_injective _ (candName_inj base ext),
    Finset.card_range] at hcard
  have hle := existing.toFinset_card_le
  omega

theorem searchFree_spec (base ext : String) (existing : List String) :
    ∀ (fuel k : Nat),
      (∃ j, k ≤ j ∧ j < k + fuel ∧ candName base ext j ∉ existing) →
      candName base ext (searchFree base ext existing fuel k) ∉ existing ∧
      k ≤ searchFree base ext existing fuel k ∧
      ∀ i, k ≤ i → i < searchFree base ext existing fuel k →
        candName base ext i ∈ existing := by
  intro fuel
  induction fuel with
  | zero =>
    intro k hex
    obtain ⟨j, hj1, hj2, _⟩ := hex
    exact absurd hj2 (by omega)
  | succ fuel ih =>
    intro k hex
    by_cases hmem : candName base ext k ∈ existing
    · have hstep : searchFree base ext existing (fuel + 1) k =
          searchFree base ext existing fuel (k + 1) := by
        simp [searchFree, hmem]
      obtain ⟨j, hj1, hj2, hj3⟩ := hex
      have hjk : j ≠ k := fun he => hj3 (he ▸ hmem)
      obtain ⟨ha, hb, hc⟩ := ih (k + 1) ⟨j, by omega, by omega, hj3⟩
      rw [hstep]
      refine ⟨ha, by omega, fun i hi1 hi2 => ?_⟩
      by_cases hik : i = k
      · exact hik ▸ hmem
      · exact hc i (by omega) hi2
    · have hstep : searchFree base ext existing (fuel + 1) k = k := by
        simp [searchFree, hmem]
      rw [hstep]
      exact ⟨hmem, le_refl k, fun i hi1 hi2 => absurd hi2 (by omega)⟩

theorem freshName_spec (base ext : String) (existing : List String) :
    freshName base ext existing ∉ existing ∧
    ∃ k, freshName base ext existing = candName base ext k ∧
      ∀ i, i < k → candName base ext i ∈ existing := by
  obtain ⟨j, hj1, hj2⟩ := exists_fresh_index base ext existing
  have h := searchFree_spec base ext existing (existing.length + 1) 0
    ⟨j, by omega, by omega, hj2⟩
  exact ⟨h.1, searchFree base ext existing (existing.length + 1) 0, rfl,
    fun i hi => h.2.2 i (by omega) hi⟩

/-- A sequence of `rename_file` calls sharing one `existing_names` set:
each call supplies (stem, ext, pattern, cleanN, dateS); the outputs are
collected and the set is threaded through. -/
def processCalls :
    List (String × String × String × String × String) → List String →
      List String × List String
  | [], ex => ([], ex)
  | c :: rest, ex =>
    let r := rename_file c.1 c.2.1 c.2.2.1 c.2.2.2.1 c.2.2.2.2 ex
    let t := processCalls rest r.2
    (r.1 :: t.1, t.2)

theorem rename_file_fst (stem ext pattern cleanN dateS : String)
    (existing : List String) :
    (rename_file stem ext pattern cleanN dateS existing).1 =
      freshName (applyPattern pattern dateS cleanN (strLower stem)) ext
        existing := rfl

theorem processCalls_fresh :
    ∀ (calls : List (String × String × String × String × String))
      (ex : List String),
      (processCalls calls ex).1.Nodup ∧
      ∀ o ∈ (processCalls calls ex).1, o ∉ ex := by
  intro calls
  induction calls with
  | nil => intro ex; exact ⟨List.nodup_nil, by simp [processCalls]⟩
  | cons c rest ih =>
    intro ex
    have hfresh : (rename_file c.1 c.2.1 c.2.2.1 c.2.2.2.1 c.2.2.2.2 ex).1 ∉ ex := by
      rw [rename_file_fst]
      exact (freshName_spec _ _ ex).1
    obtain ⟨hnd, hnin⟩ :=
      ih ((rename_file c.1 c.2.1 c.2.2.1 c.2.2.2.1 c.2.2.2.2 ex).2)
    constructor
    · show ((rename_file c.1 c.2.1 c.2.2.1 c.2.2.2.1 c.2.2.2.2 ex).1 ::
        (processCalls rest _).1).Nodup
      refine List.nodup_cons.mpr ⟨?_, hnd⟩
      intro hmem
      exact (hnin _ hmem) (by exact List.mem_cons_self _ _)
    · intro o ho
      rcases List.mem_cons.mp ho with hh | ht
      · exact hh ▸ hfresh
      · have := hnin o ht
        intro hoex
        exact this (List.mem_cons_of_mem _ hoex)

/-- C7: each `rename_file` call returns a name that is absent from
`existing_names` as it stood at the start of the call, having tried the
candidates `base+ext`, `base_1+ext`, `base_2+ext`, ... in order until the
first absent one, and inserts the chosen name into the set before
returning; consequently, over any sequence of calls sharing the same set,
no two returned filenames are ever equal. -/
theorem rename_returned_names_unique :
    (∀ (stem ext pattern cleanN dateS : String) (existing : List String),
      (rename_file stem ext pattern cleanN dateS existing).1 ∉ existing ∧
      (rename_file stem ext pattern cleanN dateS existing).2 =
        (rename_file stem ext pattern cleanN dateS existing).1 :: existing ∧
      ∃ k, (rename_file stem ext pattern cleanN dateS existing).1 =
          candName (applyPattern pattern dateS cleanN (strLower stem)) ext k ∧
        ∀ i, i < k →
          candName (applyPattern pattern dateS cleanN (strLower stem)) ext i ∈
            existing) ∧
    (∀ (calls : List (String × String × String × String × String))
      (ex : List String), (processCalls calls ex).1.Nodup) := by
  constructor
  · intro stem ext pattern cleanN dateS existing
    have h := freshName_spec (applyPattern pattern dateS cleanN (strLower stem))
      ext existing
    exact ⟨by rw [rename_file_fst]; exact h.1, rfl, by rw [rename_file_fst]; exact h.2⟩
  · intro calls ex
    exact (processCalls_fresh calls ex).1

/-- Witness for C7 at concrete inputs: renaming with pattern "x" while
"x.txt" is taken returns a name not in the set, and two calls with the same
pattern produce distinct outputs. -/
theorem rename_returned_names_unique_witness :
    (rename_file "a" ".txt" "x" "a" "D" ["x.txt"]).1 ∉ ["x.txt"] ∧
    (processCalls [("a", ".txt", "x", "a", "D"), ("b", ".txt", "x", "b", "D")]
      []).1.Nodup :=
  ⟨(rename_returned_names_unique.1 "a" ".txt" "x" "a" "D" ["x.txt"]).1,
   rename_returned_names_unique.2
     [("a", ".txt", "x", "a", "D"), ("b", ".txt", "x", "b", "D")] []⟩

end PySort
